import Mathlib

/-!
Verification of the expression-JIT core of the vapoursynth plugin
(src/expr2/exprfilter.cpp) against its specification.

The development is a shallow embedding of the compiler's lane-wise
semantics.  SIMD vectors are modelled lane-wise: one lane's value is
either an integer lane (an `Int`, the value of an `IntV` lane) or a
float lane (a `ℚ`).  Float lanes are modelled as exact rationals; every
theorem below only ever evaluates float operations at values that are
exactly representable in IEEE-754 binary32 and whose results are again
exact (integers of magnitude below 2^24 and clamps/rounds thereof), so
the rational model agrees with the machine arithmetic at all inputs the
theorems touch.  Transcendental helpers (emitted as separate module
functions by `buildHelpers`) are abstracted as environment-supplied
functions; no theorem depends on their values.
-/

namespace Expr2

/-- Round to nearest, ties to even: the rounding performed by the
backend's `RoundInt` (x86 `cvtps2dq` in the default rounding mode). -/
def rne (q : ℚ) : Int :=
  let f := ⌊q⌋
  let r := q - (f : ℚ)
  if r < 1/2 then f
  else if 1/2 < r then f + 1
  else if f % 2 = 0 then f else f + 1

/-- C truncation toward zero, `(int)f` and the backend's `Trunc`. -/
def qtrunc (q : ℚ) : Int := if q < 0 then ⌈q⌉ else ⌊q⌋

/-- An all-ones / all-zeros SIMD comparison mask for one `IntV` lane:
`-1` when the compared condition holds, `0` otherwise. -/
def maskP (p : Prop) [Decidable p] : Int := if p then -1 else 0

instance {ε α : Type} [DecidableEq ε] [DecidableEq α] : DecidableEq (Except ε α) := fun
  | .error e1, .error e2 =>
    match decEq e1 e2 with
    | isTrue h => isTrue (by rw [h])
    | isFalse h => isFalse (by intro hh; cases hh; exact h rfl)
  | .error _, .ok _ => isFalse (by intro h; cases h)
  | .ok _, .error _ => isFalse (by intro h; cases h)
  | .ok a, .ok b =>
    match decEq a b with
    | isTrue h => isTrue (by rw [h])
    | isFalse h => isFalse (by intro hh; cases hh; exact h rfl)

/-- Fuel-driven binary logarithm (structurally recursive so that proof
terms evaluate inside the kernel): for `0 < n`, `2 ^ natLog2 n ≤ n <
2 ^ (natLog2 n + 1)`. -/
def natLog2Aux : Nat → Nat → Nat
  | 0, _ => 0
  | fuel + 1, n => if n ≤ 1 then 0 else natLog2Aux fuel (n / 2) + 1

/-- See `natLog2Aux`. -/
def natLog2 (n : Nat) : Nat := natLog2Aux n n

/-- `VSFormat::sampleType`. -/
inductive SampleType
  | stInteger
  | stFloat
  deriving DecidableEq, Repr

/-- The fields of `VSFormat` the compiler reads. -/
structure VSFormat where
  sampleType : SampleType
  bitsPerSample : Nat
  bytesPerSample : Nat
  deriving DecidableEq, Repr

/-- The VapourSynth core derives `bytesPerSample` from `bitsPerSample`:
one byte up to 8 bits, two bytes up to 16 bits, four bytes above. -/
def vsBytes (bits : Nat) : Nat := if bits ≤ 8 then 1 else if bits ≤ 16 then 2 else 4

/-- Well-formedness of a format as registered by the VapourSynth core:
8..32 bits per sample, float formats are half or single precision, and
`bytesPerSample` is derived from `bitsPerSample`. -/
def VSFormatWF (f : VSFormat) : Prop :=
  8 ≤ f.bitsPerSample ∧ f.bitsPerSample ≤ 32 ∧
  (f.sampleType = .stFloat → f.bitsPerSample = 16 ∨ f.bitsPerSample = 32) ∧
  f.bytesPerSample = vsBytes f.bitsPerSample

/-- The creation-time input format validator of `exprCreate` (the
`EXPR_F16C_TEST = false` branch): rejects integer formats above 16 bits
and float formats other than 32-bit. -/
def validFormat (f : VSFormat) : Bool :=
  !(decide ((16 < f.bitsPerSample ∧ f.sampleType = .stInteger) ∨
            (f.bitsPerSample ≠ 32 ∧ f.sampleType = .stFloat)))

/-- `ExprOpType`. -/
inductive ExprOpType
  | MEM_LOAD
  | CONSTANT
  | LOAD_CONST
  | ADD
  | SUB
  | MUL
  | DIV
  | MOD
  | SQRT
  | ABS
  | MAX
  | MIN
  | CMP
  | TRUNC
  | ROUND
  | FLOOR
  | AND
  | OR
  | XOR
  | NOT
  | EXP
  | LOG
  | POW
  | SIN
  | COS
  | TERNARY
  | DUP
  | SWAP
  deriving DecidableEq, Repr

/-- `ExprOp`.  The 32-bit immediate union `ExprUnion` is modelled by its
two views: `immInt` is the value written and read through `.i`/`.u`, and
`immFloat` the value written and read through `.f`; every op kind writes
and reads exactly one of the views. -/
structure ExprOp where
  type : ExprOpType
  immInt : Int := 0
  immFloat : ℚ := 0
  name : List Char := []
  deriving DecidableEq, Repr

/-- The `numOperands` arity table of `buildOneIter`. -/
def numOperands : ExprOpType → Nat
  | .MEM_LOAD => 0
  | .CONSTANT => 0
  | .LOAD_CONST => 0
  | .ADD => 2
  | .SUB => 2
  | .MUL => 2
  | .DIV => 2
  | .MOD => 2
  | .SQRT => 1
  | .ABS => 1
  | .MAX => 2
  | .MIN => 2
  | .CMP => 2
  | .TRUNC => 1
  | .ROUND => 1
  | .FLOOR => 1
  | .AND => 2
  | .OR => 2
  | .XOR => 2
  | .NOT => 1
  | .EXP => 1
  | .LOG => 1
  | .POW => 2
  | .SIN => 1
  | .COS => 1
  | .TERNARY => 3
  | .DUP => 0
  | .SWAP => 0

/-- `std::isspace` in the C locale. -/
def isSpaceChar (c : Char) : Bool :=
  c = ' ' || c = '\t' || c = '\n' || c = Char.ofNat 11 || c = Char.ofNat 12 || c = '\r'

/-- Helper of `tokenize`: accumulates the current token (reversed). -/
def tokenizeAux : List Char → List Char → List (List Char)
  | [], cur => if cur = [] then [] else [cur.reverse]
  | c :: rest, cur =>
    if isSpaceChar c then
      if cur = [] then tokenizeAux rest [] else cur.reverse :: tokenizeAux rest []
    else tokenizeAux rest (c :: cur)

/-- `tokenize`: split the source on whitespace; empty runs produce no token. -/
def tokenize (s : List Char) : List (List Char) := tokenizeAux s []

/-- Errors raised during compilation, plus markers for the two
non-exception failure modes of the source: `uninitRead` marks a path
that reads the uninitialized IR value `x` in `MEM_LOAD`/`CMP`,
`abortCalled` marks the `abort()` for 16-bit-float formats, and
`variantAccess` marks an `std::get` on the wrong `std::variant`
alternative (`std::bad_variant_access`). -/
inductive LowerErr
  | illegalToken (tok : List Char)
  | badLiteral (tok : List Char)
  | undefinedClip (tok : List Char)
  | stackUnderflow (tok : List Char)
  | emptyExpression (e : List Char)
  | unconsumedValues (e : List Char)
  | uninitRead
  | abortCalled
  | variantAccess
  deriving DecidableEq, Repr

/-- The error message texts of the source (`stackUnderflow` is the
"insufficient values on stack" error). -/
def errMessage : LowerErr → List Char
  | .illegalToken t => "illegal token: ".data ++ t
  | .badLiteral t => "failed to convert '".data ++ t ++ "' to float".data
  | .undefinedClip t => "reference to undefined clip: ".data ++ t
  | .stackUnderflow t => "insufficient values on stack: ".data ++ t
  | .emptyExpression e => "empty expression: ".data ++ e
  | .unconsumedValues e => "unconsumed values on stack: ".data ++ e
  | .uninitRead => "uninitialized value read".data
  | .abortCalled => "abort".data
  | .variantAccess => "bad_variant_access".data

/-- Value of a digit string, most significant first. -/
def digitsVal (l : List Char) : Nat := l.foldl (fun a c => a * 10 + (c.toNat - '0'.toNat)) 0

/-- `std::stoi` with consumed-character count: optional sign, at least
one decimal digit, overflow beyond int range throws (`none`). -/
def stoiParse (l : List Char) : Option (Int × Nat) :=
  match (match l with
         | '+' :: r => ((1 : Int), r, 1)
         | '-' :: r => ((-1 : Int), r, 1)
         | _ => ((1 : Int), l, 0) : Int × List Char × Nat) with
  | (sgn, rest, slen) =>
    let ds := rest.takeWhile Char.isDigit
    if ds = [] then none
    else
      let v : Int := sgn * (digitsVal ds : Int)
      if v > 2 ^ 31 - 1 ∨ v < -(2 ^ 31) then none
      else some (v, slen + ds.length)

/-- Unsigned decimal significand: `digits[.digits]` or `.digits`;
returns the value and the unconsumed rest. -/
def parseUDec (l : List Char) : Option (ℚ × List Char) :=
  let ip := l.takeWhile Char.isDigit
  let r1 := l.drop ip.length
  match r1 with
  | '.' :: r2 =>
    let fp := r2.takeWhile Char.isDigit
    if ip = [] ∧ fp = [] then none
    else some ((digitsVal ip : ℚ) + (digitsVal fp : ℚ) / (10 : ℚ) ^ fp.length, r2.drop fp.length)
  | _ => if ip = [] then none else some ((digitsVal ip : ℚ), r1)

/-- Optionally signed decimal digits, for exponents. -/
def parseSignedDigits (l : List Char) : Option (Int × List Char) :=
  match l with
  | '+' :: r =>
    let ds := r.takeWhile Char.isDigit
    if ds = [] then none else some ((digitsVal ds : Int), r.drop ds.length)
  | '-' :: r =>
    let ds := r.takeWhile Char.isDigit
    if ds = [] then none else some (-(digitsVal ds : Int), r.drop ds.length)
  | _ =>
    let ds := l.takeWhile Char.isDigit
    if ds = [] then none else some ((digitsVal ds : Int), l.drop ds.length)

/-- A decimal exponent part `e±digits` / `E±digits`. -/
def parseExponent : List Char → Option (Int × List Char)
  | 'e' :: r => parseSignedDigits r
  | 'E' :: r => parseSignedDigits r
  | _ => none

/-- The float-literal branch of `decodeToken`: C-locale stream
extraction of a float followed by the leftover check (`numStream >> s`
succeeding is an error).  The decimal value is modelled exactly in ℚ;
all literals appearing in theorems below are exactly representable in
binary32, where stream extraction is exact as well. -/
def parseFloatTok (l : List Char) : Option ℚ :=
  match (match l with
         | '+' :: r => ((1 : ℚ), r)
         | '-' :: r => ((-1 : ℚ), r)
         | _ => ((1 : ℚ), l) : ℚ × List Char) with
  | (sgn, body) =>
    match parseUDec body with
    | none => none
    | some (m, rest) =>
      match parseExponent rest with
      | some (e, rest2) => if rest2 = [] then some (sgn * (m * (10 : ℚ) ^ e)) else none
      | none => if rest = [] then some (sgn * m) else none

/-- The binary32 value of the `pi` token, `(float)M_PI` (bit pattern
0x40490FDB). -/
def piF32 : ℚ := 13176795 / 4194304

/-- Clip index of a one-letter load: x→0, y→1, z→2, a→3, ..., w→25. -/
def memIdx (c : Char) : Int :=
  if 'x' ≤ c then (c.toNat : Int) - ('x'.toNat : Int)
  else (c.toNat : Int) - ('a'.toNat : Int) + 3

/-- The `simple` token table of `decodeToken`. -/
def simpleTok (tok : List Char) : Option ExprOp :=
  if tok = "+".data then some ⟨.ADD, 0, 0, []⟩
  else if tok = "-".data then some ⟨.SUB, 0, 0, []⟩
  else if tok = "*".data then some ⟨.MUL, 0, 0, []⟩
  else if tok = "/".data then some ⟨.DIV, 0, 0, []⟩
  else if tok = "%".data then some ⟨.MOD, 0, 0, []⟩
  else if tok = "sqrt".data then some ⟨.SQRT, 0, 0, []⟩
  else if tok = "abs".data then some ⟨.ABS, 0, 0, []⟩
  else if tok = "max".data then some ⟨.MAX, 0, 0, []⟩
  else if tok = "min".data then some ⟨.MIN, 0, 0, []⟩
  else if tok = "<".data then some ⟨.CMP, 1, 0, []⟩
  else if tok = ">".data then some ⟨.CMP, 6, 0, []⟩
  else if tok = "=".data then some ⟨.CMP, 0, 0, []⟩
  else if tok = ">=".data then some ⟨.CMP, 5, 0, []⟩
  else if tok = "<=".data then some ⟨.CMP, 2, 0, []⟩
  else if tok = "trunc".data then some ⟨.TRUNC, 0, 0, []⟩
  else if tok = "round".data then some ⟨.ROUND, 0, 0, []⟩
  else if tok = "floor".data then some ⟨.FLOOR, 0, 0, []⟩
  else if tok = "and".data then some ⟨.AND, 0, 0, []⟩
  else if tok = "or".data then some ⟨.OR, 0, 0, []⟩
  else if tok = "xor".data then some ⟨.XOR, 0, 0, []⟩
  else if tok = "not".data then some ⟨.NOT, 0, 0, []⟩
  else if tok = "?".data then some ⟨.TERNARY, 0, 0, []⟩
  else if tok = "exp".data then some ⟨.EXP, 0, 0, []⟩
  else if tok = "log".data then some ⟨.LOG, 0, 0, []⟩
  else if tok = "pow".data then some ⟨.POW, 0, 0, []⟩
  else if tok = "sin".data then some ⟨.SIN, 0, 0, []⟩
  else if tok = "cos".data then some ⟨.COS, 0, 0, []⟩
  else if tok = "dup".data then some ⟨.DUP, 0, 0, []⟩
  else if tok = "swap".data then some ⟨.SWAP, 1, 0, []⟩
  else if tok = "pi".data then some ⟨.CONSTANT, 0, piF32, []⟩
  else if tok = "N".data then some ⟨.LOAD_CONST, 0, 0, []⟩
  else if tok = "X".data then some ⟨.LOAD_CONST, 1, 0, []⟩
  else if tok = "Y".data then some ⟨.LOAD_CONST, 2, 0, []⟩
  else none

/-- The `dupN`/`swapN`, frame-property and float-literal branches of
`decodeToken` (tried after the table and the one-letter loads).  The two
distinct float-conversion error messages of the source are collapsed
into the single `badLiteral` kind. -/
def decodeTail (tok : List Char) : Except LowerErr ExprOp :=
  if tok.take 3 = "dup".data ∨ tok.take 4 = "swap".data then
    let pfx := if tok.headD ' ' = 'd' then 3 else 4
    match stoiParse (tok.drop pfx) with
    | none => .error (.illegalToken tok)
    | some (idx, count) =>
      if idx < 0 ∨ pfx + count ≠ tok.length then .error (.illegalToken tok)
      else .ok ⟨if tok.headD ' ' = 'd' then .DUP else .SWAP, idx, 0, []⟩
  else if 3 ≤ tok.length ∧ ('a' ≤ tok.headD ' ' ∧ tok.headD ' ' ≤ 'z') ∧ tok.getD 1 ' ' = '.' then
    .ok ⟨.LOAD_CONST, 3 + memIdx (tok.headD ' '), 0, tok.drop 2⟩
  else
    match parseFloatTok tok with
    | some q => .ok ⟨.CONSTANT, 0, q, []⟩
    | none => .error (.badLiteral tok)

/-- `decodeToken`. -/
def decodeToken (tok : List Char) : Except LowerErr ExprOp :=
  match simpleTok tok with
  | some op => .ok op
  | none =>
    match tok with
    | [c] => if 'a' ≤ c ∧ c ≤ 'z' then .ok ⟨.MEM_LOAD, memIdx c, 0, []⟩ else decodeTail tok
    | _ => decodeTail tok

/-- One lane of a compile-time stack `Value`: the `std::variant<IntV,
FloatV>` restricted to a single lane. -/
inductive LaneVal
  | iv (v : Int)
  | fv (q : ℚ)
  deriving DecidableEq, Repr

/-- A compile-time stack entry (`Compiler::Value`): a lane value plus
the `constant` flag set exactly by the literal-immediate constructors. -/
structure Value where
  val : LaneVal
  constant : Bool
  deriving DecidableEq, Repr

/-- `Value::isFloat`. -/
def Value.isFloat (v : Value) : Bool :=
  match v.val with
  | .fv _ => true
  | .iv _ => false

/-- `Value::f()`: `std::get<FloatV>`, which throws
`std::bad_variant_access` when the variant holds the integer
alternative. -/
def Value.getF (v : Value) : Except LowerErr ℚ :=
  match v.val with
  | .fv q => .ok q
  | .iv _ => .error .variantAccess

/-- `Value::i()`: `std::get<IntV>`. -/
def Value.getI (v : Value) : Except LowerErr Int :=
  match v.val with
  | .iv n => .ok n
  | .fv _ => .error .variantAccess

/-- `Value::ensureFloat()`: the value, converted to float if integer
(exact for the magnitudes below 2^24 used in the theorems). -/
def Value.ensureFloat (v : Value) : ℚ :=
  match v.val with
  | .fv q => q
  | .iv n => (n : ℚ)

/-- The compilation/evaluation environment of one lane: creation-time
data (`Context`: input count, formats, the `use-integer` option bit,
output format) together with the run-time data the generated code reads
at this lane's pixel coordinate (input pixel values, frame number,
coordinates, the constants buffer).  `pixI i` is the raw unsigned
integer sample of clip `i` at the coordinate, `pixF i` the float
sample; `consts k` is the constants-buffer slot `k ≥ 1` read as float.
The five `h*` fields abstract the numeric helper routines emitted by
`buildHelpers` and the backend `Sqrt` intrinsic. -/
structure Env where
  numInputs : Nat
  fmts : Nat → VSFormat
  pixI : Nat → Nat
  pixF : Nat → ℚ
  forceFloat : Bool
  frameN : Int
  xcoord : Nat
  ycoord : Nat
  consts : Nat → ℚ
  outFmt : VSFormat
  hExp : ℚ → ℚ
  hLog : ℚ → ℚ
  hSin : ℚ → ℚ
  hCos : ℚ → ℚ
  hPow : ℚ → ℚ → ℚ
  hSqrt : ℚ → ℚ

/-- Junk entry used only under bound checks that have already passed. -/
def defaultValue : Value := ⟨.iv 0, false⟩

/-- The `MEM_LOAD` case of `buildOneIter` at one lane: dispatch on the
input's sample type and byte width; 8- and 16-bit integer samples are
zero-extended, 32-bit float samples loaded as float; an integer sample
with any other byte width leaves the vector `x` uninitialized
(`uninitRead`), a 16-bit float sample hits `abort()`, a float sample of
any other width also leaves `x` uninitialized.  With `use-integer` off
(`forceFloat`), integer loads are promoted to float immediately. -/
def memLoadFmt (format : VSFormat) (ff : Bool) (rawI : Nat) (rawF : ℚ) :
    Except LowerErr Value :=
  match format.sampleType with
  | .stInteger =>
    let xload : Except LowerErr Int :=
      if format.bytesPerSample = 1 then .ok ((rawI % 2 ^ 8 : Nat) : Int)
      else if format.bytesPerSample = 2 then .ok ((rawI % 2 ^ 16 : Nat) : Int)
      else .error .uninitRead
    match xload with
    | .error e => .error e
    | .ok x => if ff then .ok ⟨.fv (x : ℚ), false⟩ else .ok ⟨.iv x, false⟩
  | .stFloat =>
    if format.bytesPerSample = 2 then .error .abortCalled
    else if format.bytesPerSample = 4 then .ok ⟨.fv rawF, false⟩
    else .error .uninitRead

/-- See `memLoadFmt`: the load reads clip `i`'s format
(`ctx.vi[i]->format`) and the pixel at this lane's coordinate. -/
def memLoadVal (env : Env) (i : Nat) : Except LowerErr Value :=
  memLoadFmt (env.fmts i) env.forceFloat (env.pixI i) (env.pixF i)

/-- The `BINARYOP(op, forceFloat)` macro at one lane: float wins; two
integer operands use the integer op unless `forceFloat`. -/
def binArith (fi : Int → Int → Int) (ff : ℚ → ℚ → ℚ) (forceF : Bool) (l r : Value) : Value :=
  match l.val, r.val with
  | .fv a, .fv b => ⟨.fv (ff a b), false⟩
  | .fv a, .iv b => ⟨.fv (ff a (b : ℚ)), false⟩
  | .iv a, .fv b => ⟨.fv (ff (a : ℚ) b), false⟩
  | .iv a, .iv b => if forceF then ⟨.fv (ff (a : ℚ) (b : ℚ)), false⟩ else ⟨.iv (fi a b), false⟩

/-- The `UNARYOP(op, forceFloat)` macro at one lane. -/
def unArith (fi : Int → Int) (ff : ℚ → ℚ) (forceF : Bool) (x : Value) : Value :=
  match x.val with
  | .fv a => ⟨.fv (ff a), false⟩
  | .iv a => if forceF then ⟨.fv (ff (a : ℚ)), false⟩ else ⟨.iv (fi a), false⟩

/-- The `UNARYOPF(op)` macro at one lane: promote to float, apply. -/
def unFloat (ff : ℚ → ℚ) (x : Value) : Value := ⟨.fv (ff x.ensureFloat), false⟩

/-- Float modulo (`operator %` on float vectors, `frem`):
`a - trunc(a/b)*b`.  (Unused by every theorem below; at `b = 0` IEEE
produces NaN while this model produces `a`.) -/
def fmodQ (a b : ℚ) : ℚ := a - ((qtrunc (a / b) : Int) : ℚ) * b

/-- The `CMP` switch on integer lanes; comparison codes as in
`ComparisonType` (EQ 0, LT 1, LE 2, NEQ 4, NLT 5, NLE 6).  Any other
code leaves the result vector `x` uninitialized. -/
def cmpMaskI (code : Int) (a b : Int) : Except LowerErr Int :=
  if code = 0 then .ok (maskP (a = b))
  else if code = 1 then .ok (maskP (a < b))
  else if code = 2 then .ok (maskP (a ≤ b))
  else if code = 4 then .ok (maskP (a ≠ b))
  else if code = 5 then .ok (maskP (¬a < b))
  else if code = 6 then .ok (maskP (¬a ≤ b))
  else .error .uninitRead

/-- The `CMP` switch on float lanes. -/
def cmpMaskF (code : Int) (a b : ℚ) : Except LowerErr Int :=
  if code = 0 then .ok (maskP (a = b))
  else if code = 1 then .ok (maskP (a < b))
  else if code = 2 then .ok (maskP (a ≤ b))
  else if code = 4 then .ok (maskP (a ≠ b))
  else if code = 5 then .ok (maskP (¬a < b))
  else if code = 6 then .ok (maskP (¬a ≤ b))
  else .error .uninitRead

/-- The `LOGICOP(op)` macro at one lane, exactly as written in the
source: the truth mask of the left operand is `CmpGT` against zero of
`l`'s own type, but the branch for the right operand also tests
`l.isFloat()`, so with operands of different numeric families the
access `r.f()` / `r.i()` hits the wrong variant alternative. -/
def logicOp (bop : Int → Int → Int) (l r : Value) : Except LowerErr Value := do
  let li ← if l.isFloat then do pure (maskP ((0 : ℚ) < (← l.getF)))
           else do pure (maskP ((0 : Int) < (← l.getI)))
  let ri ← if l.isFloat then do pure (maskP ((0 : ℚ) < (← r.getF)))
           else do pure (maskP ((0 : Int) < (← r.getI)))
  pure ⟨.iv (Int.land (bop li ri) 1), false⟩

/-- The `NOT` case: `operand ≤ 0`, tested per the operand's own type,
then `& 1`. -/
def notOp (x : Value) : Value :=
  let xi : Int :=
    match x.val with
    | .fv q => maskP (q ≤ 0)
    | .iv n => maskP (n ≤ 0)
  ⟨.iv (Int.land xi 1), false⟩

/-- The `TERNARY` case: condition mask `c > 0` per `c`'s own type; the
bitwise blend `(t & m) | (f & ~m)` with an all-ones/all-zeros lane mask
is lane-wise selection, which is how the float branch is modelled; the
integer branch keeps the literal bitwise form. -/
def ternaryOp (c t f : Value) : Value :=
  let ci : Int :=
    match c.val with
    | .fv q => maskP ((0 : ℚ) < q)
    | .iv n => maskP ((0 : Int) < n)
  if t.isFloat || f.isFloat then
    ⟨.fv (if ci = -1 then t.ensureFloat else f.ensureFloat), false⟩
  else
    match t.val, f.val with
    | .iv ti, .iv fi2 => ⟨.iv (Int.lor (Int.land ti ci) (Int.land fi2 (Int.lnot ci))), false⟩
    | _, _ => defaultValue

/-- One step of `buildOneIter`'s op loop at one lane: the three
validity checks (undefined clip for `MEM_LOAD`, depth for `DUP`/`SWAP`,
the arity table), then the op's case of the switch.  The stack is a
list with the top at the head; the final catch-all alternative is
unreachable once the arity check has passed. -/
def stepOp (env : Env) (tok : List Char) (op : ExprOp) (stack : List Value) :
    Except LowerErr (List Value) :=
  if op.type = .MEM_LOAD ∧ (env.numInputs : Int) ≤ op.immInt then .error (.undefinedClip tok)
  else if (op.type = .DUP ∨ op.type = .SWAP) ∧ stack.length ≤ op.immInt.toNat then
    .error (.stackUnderflow tok)
  else if stack.length < numOperands op.type then .error (.stackUnderflow tok)
  else
    match op.type, stack with
    | .DUP, st => .ok (st.getD op.immInt.toNat defaultValue :: st)
    | .SWAP, st =>
      let a := st.getD 0 defaultValue
      let b := st.getD op.immInt.toNat defaultValue
      .ok ((st.set 0 b).set op.immInt.toNat a)
    | .MEM_LOAD, st =>
      match memLoadVal env op.immInt.toNat with
      | .error e => .error e
      | .ok v => .ok (v :: st)
    | .CONSTANT, st =>
      if op.immFloat = ((qtrunc op.immFloat : Int) : ℚ) then
        .ok (⟨.iv (qtrunc op.immFloat), true⟩ :: st)
      else .ok (⟨.fv op.immFloat, true⟩ :: st)
    | .LOAD_CONST, st =>
      if op.immInt = 0 then .ok (⟨.iv env.frameN, false⟩ :: st)
      else if op.immInt = 2 then .ok (⟨.iv (env.ycoord : Int), false⟩ :: st)
      else if op.immInt = 1 then .ok (⟨.iv (env.xcoord : Int), false⟩ :: st)
      else .ok (⟨.fv (env.consts (op.immInt - 2).toNat), false⟩ :: st)
    | .ADD, r :: l :: st => .ok (binArith (· + ·) (· + ·) false l r :: st)
    | .SUB, r :: l :: st => .ok (binArith (· - ·) (· - ·) false l r :: st)
    | .MUL, r :: l :: st => .ok (binArith (· * ·) (· * ·) false l r :: st)
    | .DIV, r :: l :: st => .ok (binArith (· / ·) (· / ·) true l r :: st)
    | .MOD, r :: l :: st => .ok (binArith (· % ·) fmodQ true l r :: st)
    | .SQRT, x :: st => .ok (unFloat (fun q => env.hSqrt (max q 0)) x :: st)
    | .ABS, x :: st => .ok (unArith (fun n => |n|) (fun q => |q|) env.forceFloat x :: st)
    | .MAX, r :: l :: st => .ok (binArith max max env.forceFloat l r :: st)
    | .MIN, r :: l :: st => .ok (binArith min min env.forceFloat l r :: st)
    | .CMP, r :: l :: st =>
      match (if l.isFloat || r.isFloat then cmpMaskF op.immInt l.ensureFloat r.ensureFloat
             else do cmpMaskI op.immInt (← l.getI) (← r.getI)) with
      | .error e => .error e
      | .ok x => .ok (⟨.iv (Int.land x 1), false⟩ :: st)
    | .AND, r :: l :: st =>
      match logicOp Int.land l r with
      | .error e => .error e
      | .ok v => .ok (v :: st)
    | .OR, r :: l :: st =>
      match logicOp Int.lor l r with
      | .error e => .error e
      | .ok v => .ok (v :: st)
    | .XOR, r :: l :: st =>
      match logicOp Int.xor l r with
      | .error e => .error e
      | .ok v => .ok (v :: st)
    | .NOT, x :: st => .ok (notOp x :: st)
    | .TRUNC, x :: st => .ok (unFloat (fun q => ((qtrunc q : Int) : ℚ)) x :: st)
    | .ROUND, x :: st => .ok (unFloat (fun q => ((rne q : Int) : ℚ)) x :: st)
    | .FLOOR, x :: st => .ok (unFloat (fun q => ((⌊q⌋ : Int) : ℚ)) x :: st)
    | .EXP, x :: st => .ok (unFloat env.hExp x :: st)
    | .LOG, x :: st => .ok (unFloat env.hLog x :: st)
    | .POW, r :: l :: st => .ok (⟨.fv (env.hPow l.ensureFloat r.ensureFloat), false⟩ :: st)
    | .SIN, x :: st => .ok (unFloat env.hSin x :: st)
    | .COS, x :: st => .ok (unFloat env.hCos x :: st)
    | .TERNARY, f2 :: t :: c :: st => .ok (ternaryOp c t f2 :: st)
    | _, _ => .error (.stackUnderflow tok)

/-- The op loop of `buildOneIter` over the whole (token, op) stream. -/
def runOps (env : Env) : List (List Char × ExprOp) → List Value → Except LowerErr (List Value)
  | [], st => .ok st
  | (tok, op) :: rest, st =>
    match stepOp env tok op st with
    | .error e => .error e
    | .ok st2 => runOps env rest st2

/-- What the generated store writes at one output lane: a clamped,
truncated integer sample, a float sample, or nothing at all (an
integer output whose byte width is neither 1 nor 2 stores nothing). -/
inductive Stored
  | si (v : Nat)
  | sf (q : ℚ)
  | noWrite
  deriving DecidableEq, Repr

/-- The store of the residual value after the op loop: integer outputs
clamp to `[0, 2^bits - 1]` (with `RoundInt` when the value is float)
and narrow through `UShortV` (mod 2^16) and, for 1-byte formats,
`ByteV` (mod 2^8); float 16-bit output aborts; float 32-bit output
stores the value promoted to float. -/
def storeVal (fmt : VSFormat) (res : Value) : Except LowerErr Stored :=
  match fmt.sampleType with
  | .stInteger =>
    let maxval : Int := 2 ^ fmt.bitsPerSample - 1
    let rounded : Int :=
      match res.val with
      | .fv q => rne (min (max q 0) (maxval : ℚ))
      | .iv n => min (max n 0) maxval
    if fmt.bytesPerSample = 1 then .ok (.si ((rounded % 2 ^ 16 % 2 ^ 8).toNat))
    else if fmt.bytesPerSample = 2 then .ok (.si ((rounded % 2 ^ 16).toNat))
    else .ok .noWrite
  | .stFloat =>
    if fmt.bytesPerSample = 2 then .error .abortCalled
    else if fmt.bytesPerSample = 4 then .ok (.sf res.ensureFloat)
    else .ok .noWrite

/-- Decoding of the whole token stream (the `Context` constructor). -/
def decodeAll : List (List Char) → Except LowerErr (List ExprOp)
  | [] => .ok []
  | t :: r =>
    match decodeToken t with
    | .error e => .error e
    | .ok op =>
      match decodeAll r with
      | .error e => .error e
      | .ok ops => .ok (op :: ops)

/-- Whether an op is a frame-property access: a `LOAD_CONST` whose
immediate is at or beyond `LoadConstType::LAST` (= 3). -/
def isPropOp (op : ExprOp) : Bool :=
  decide (op.type = .LOAD_CONST ∧ 3 ≤ op.immInt)

/-- The `(clip-index, property-name)` pair of a property op. -/
def propPair (op : ExprOp) : Nat × List Char := ((op.immInt - 3).toNat, op.name)

/-- Position of a key in the interning list (`paMap.at`): the dense
index of a key present in the list. -/
def idxOfKey : List (Nat × List Char) → (Nat × List Char) → Nat
  | [], _ => 0
  | a :: r, p => if p = a then 0 else idxOfKey r p + 1

/-- The property-access resolver pass of `Compiler::compile`: walk the
ops; for each property `LOAD_CONST` check the clip index against the
input count, intern the `(clip, name)` pair (the map is modelled as the
list of keys in insertion order, whose positions are exactly the dense
indices the `std::map` assigns through `paMap.size()`), and rewrite the
immediate to `3 + dense index`.  Returns the rewritten ops and the
final key list, which is the descriptor vector `pa` in dense-index
order. -/
def resolveProps (n : Nat) :
    List (List Char × ExprOp) → List (Nat × List Char) →
    Except LowerErr (List ExprOp × List (Nat × List Char))
  | [], acc => .ok ([], acc)
  | (tok, op) :: rest, acc =>
    if isPropOp op then
      if n ≤ (op.immInt - 3).toNat then .error (.undefinedClip tok)
      else
        let key := propPair op
        let acc2 := if key ∈ acc then acc else acc ++ [key]
        match resolveProps n rest acc2 with
        | .error e => .error e
        | .ok (ops2, accF) =>
          .ok ({ op with immInt := 3 + (idxOfKey acc2 key : Int) } :: ops2, accF)
    else
      match resolveProps n rest acc with
      | .error e => .error e
      | .ok (ops2, accF) => .ok (op :: ops2, accF)

/-- The whole per-plane pipeline at one lane: tokenize, decode
(`Context` constructor), resolve property accesses
(`Compiler::compile`), run the op loop, check the residual stack depth
and store (`buildOneIter`).  Compile-time errors of the source occur at
exactly these guards; running the loop at one lane additionally yields
the value the generated code stores there. -/
def compileExpr (env : Env) (expr : List Char) : Except LowerErr Stored :=
  let toks := tokenize expr
  match decodeAll toks with
  | .error e => .error e
  | .ok ops =>
    match resolveProps env.numInputs (toks.zip ops) [] with
    | .error e => .error e
    | .ok (ops2, _) =>
      match runOps env (toks.zip ops2) [] with
      | .error e => .error e
      | .ok [] => .error (.emptyExpression expr)
      | .ok [res] => storeVal env.outFmt res
      | .ok (_ :: _ :: _) => .error (.unconsumedValues expr)

/-- `PlaneOp`. -/
inductive PlaneOp
  | poProcess
  | poCopy
  | poUndefined
  deriving DecidableEq, Repr

/-- The per-plane branch of `exprCreate`: a non-empty expression string
marks the plane `poProcess` and compiles it (any compile error fails
creation); an empty string marks the plane `poCopy` when the output
format keeps the input's bits and sample type, `poUndefined` otherwise,
and compiles nothing. -/
def createOnePlane (env : Env) (expr : List Char) (sameFmt : Bool) :
    Except LowerErr PlaneOp :=
  if expr = [] then .ok (if sameFmt then .poCopy else .poUndefined)
  else
    match compileExpr env expr with
    | .error e => .error e
    | .ok _ => .ok .poProcess

/-- The host-facing outcome of `exprCreate` for one plane: on a
compile error the catch block frees the nodes and reports the message
through `vsapi->setError` with the `"Expr: "` prefix, creating no
filter. -/
def hostCreateOnePlane (env : Env) (expr : List Char) (sameFmt : Bool) :
    Except (List Char) PlaneOp :=
  match createOnePlane env expr sameFmt with
  | .error e => .error ("Expr: ".data ++ errMessage e)
  | .ok p => .ok p

/-- An 8-bit unsigned integer format as registered by the core. -/
def fmtU8 : VSFormat := ⟨.stInteger, 8, 1⟩

/-- A concrete environment: no inputs, 8-bit integer output, `opt = 1`
(`use-integer` on), all run-time data zero, trivial helper
abstractions. -/
def env0 : Env where
  numInputs := 0
  fmts := fun _ => fmtU8
  pixI := fun _ => 0
  pixF := fun _ => 0
  forceFloat := false
  frameN := 0
  xcoord := 0
  ycoord := 0
  consts := fun _ => 0
  outFmt := fmtU8
  hExp := fun _ => 0
  hLog := fun _ => 0
  hSin := fun _ => 0
  hCos := fun _ => 0
  hPow := fun _ _ => 0
  hSqrt := fun _ => 0

/-- One 8-bit integer input clip whose sample at the lane's coordinate
is `v`; 8-bit integer output; `opt = 1`. -/
def env1 (v : Nat) : Env := { env0 with numInputs := 1, pixI := fun _ => v }

/-- One integer input clip of format `fmt` with sample value `v`,
output of the same format, and `use-integer` given by `ff = false`
(`opt = 1`) or promoted-to-float mode (`ff = true`, `opt = 0`). -/
def mkIntEnv (fmt : VSFormat) (v : Nat) (ff : Bool) : Env :=
  { env0 with
    numInputs := 1
    fmts := fun _ => fmt
    pixI := fun _ => v
    forceFloat := ff
    outFmt := fmt }

/-- A frame property as held by the host for one name: an integer
property, a float property, a property of some other type (data,
node, ...), or absent. -/
inductive HostProp
  | intP (v : Int)
  | floatP (q : ℚ)
  | otherP
  deriving DecidableEq, Repr

/-- VapourSynth property error codes: `peUnset = 1`, `peType = 2`. -/
def peUnset : Nat := 1

/-- See `peUnset`. -/
def peType : Nat := 2

/-- `vsapi->propGetInt` on the first element: the value and the error
code. -/
def propGetIntM : Option HostProp → Int × Nat
  | some (.intP v) => (v, 0)
  | some _ => (0, peType)
  | none => (0, peUnset)

/-- `vsapi->propGetFloat` on the first element. -/
def propGetFloatM : Option HostProp → ℚ × Nat
  | some (.floatP q) => (q, 0)
  | some _ => (0, peType)
  | none => (0, peUnset)

/-- Conversion of an `int64_t` to binary32 (the C conversion performed
by `float val = vsapi->propGetInt(...)`): exact below 2^24 in
magnitude, round to nearest (ties to even) at 24-bit mantissa
granularity above. -/
def f32OfInt (v : Int) : ℚ :=
  let m := v.natAbs
  if m = 0 then 0
  else
    let e := natLog2 m
    let mag : ℚ :=
      if e ≤ 23 then (m : ℚ)
      else ((rne ((m : ℚ) / 2 ^ (e - 23)) : Int) : ℚ) * 2 ^ (e - 23)
    if v < 0 then -mag else mag

/-- The content of one constants-buffer slot: a float value, or the
NaN written by `std::nanf("")`. -/
inductive SlotV
  | val (q : ℚ)
  | nan
  deriving DecidableEq, Repr

/-- The property-materialization loop body of `exprGetFrame`, for one
descriptor: `float val = propGetInt(...)`; on `peType` retry with
`propGetFloat`; on any remaining error store NaN.  (The float property
value is a host double stored into a float; all float values any
theorem touches are exactly representable, so the narrowing is the
identity here.) -/
def materializeSlot (p : Option HostProp) : SlotV :=
  let r1 := propGetIntM p
  let v1 : ℚ := f32OfInt r1.1
  let r2 : ℚ × Nat :=
    if r1.2 = peType then
      let rf := propGetFloatM p
      (rf.1, rf.2)
    else (v1, r1.2)
  if r2.2 ≠ 0 then .nan else .val r2.1

/-- The per-frame constants buffer: slot 0 holds the frame number `n`
(stored and read through the `int` view of the union), and one slot per
property-access descriptor, in descriptor order. -/
structure ConstBuf where
  frameN : Int
  slots : List SlotV
  deriving DecidableEq, Repr

/-- `exprGetFrame`'s construction of the constants buffer for one
plane: `consts = { n }` followed by one materialized slot per
descriptor. -/
def buildConsts (n : Int) (pas : List (Nat × List Char))
    (lookup : Nat → List Char → Option HostProp) : ConstBuf :=
  ⟨n, pas.map fun pa => materializeSlot (lookup pa.1 pa.2)⟩

/-- Decode an IEEE-754 binary32 bit pattern to its real value; `none`
for NaN/infinity patterns (biased exponent 255). -/
def decodeF32 (bits : Nat) : Option ℚ :=
  let b : Nat := bits % 2 ^ 32
  let sign : Nat := b / 2 ^ 31
  let ex : Nat := b / 2 ^ 23 % 2 ^ 8
  let frac : Nat := b % 2 ^ 23
  if ex = 255 then none
  else
    let mag : ℚ :=
      if ex = 0 then (frac : ℚ) / 2 ^ 149
      else ((2 : ℚ) ^ 23 + (frac : ℚ)) * 2 ^ ex / 2 ^ 150
    some (if sign = 1 then -mag else mag)

/-- Modelled from the spec: the slot content the specification text
describes, with an integer property's value "reinterpreted" bitwise as
a float (the low 32 bits of the integer read as a binary32 pattern)
rather than converted numerically.  Used only to compare the
specification's wording against `materializeSlot`. -/
def slotSpecBitPattern (p : Option HostProp) : SlotV :=
  match p with
  | some (.intP v) =>
    match decodeF32 (v % 2 ^ 32).toNat with
    | some q => .val q
    | none => .nan
  | some (.floatP q) => .val q
  | some .otherP => .nan
  | none => .nan

/-- The amended slot specification: a float property contributes its
value, an integer property its value converted numerically to float,
and any retrieval failure (absent property or a property of neither
numeric type) contributes NaN. -/
def slotSpecAmended (p : Option HostProp) : SlotV :=
  match p with
  | some (.intP v) => .val (f32OfInt v)
  | some (.floatP q) => .val q
  | some .otherP => .nan
  | none => .nan

/-- First-occurrence interning of a `(clip, name)` pair sequence into a
key list, starting from `acc`: the fold the resolver pass performs on
its `std::map` (the list holds the keys in insertion order, so the
position of a key is the dense index `paMap` assigns to it). -/
def dedupF (acc : List (Nat × List Char)) (l : List (Nat × List Char)) :
    List (Nat × List Char) :=
  l.foldl (fun a x => if x ∈ a then a else a ++ [x]) acc

/-- The `(clip, name)` pairs of the property ops of an op stream, in
program order. -/
def pairsOf (l : List (List Char × ExprOp)) : List (Nat × List Char) :=
  l.filterMap fun te => if isPropOp te.2 then some (propPair te.2) else none

/-- The immediate rewrite the resolver performs, stated against a fixed
descriptor list `pa`: a property op's immediate becomes `3 + (dense
index of its pair in pa)`; every other op is untouched. -/
def rewriteOp (pa : List (Nat × List Char)) (op : ExprOp) : ExprOp :=
  if isPropOp op then { op with immInt := 3 + (idxOfKey pa (propPair op) : Int) } else op

/-- A sample op stream with a duplicated property access, used as the
concrete witness input for the resolver theorem. -/
def samplePropOps : List (List Char × ExprOp) :=
  [("x.a".data, ⟨.LOAD_CONST, 3, 0, "a".data⟩),
   ("y.b".data, ⟨.LOAD_CONST, 4, 0, "b".data⟩),
   ("x.a".data, ⟨.LOAD_CONST, 3, 0, "a".data⟩),
   ("2".data, ⟨.CONSTANT, 0, 2, []⟩)]

lemma rne_intCast (n : Int) : rne (n : ℚ) = n := by
  unfold rne
  norm_num

lemma rne_nonneg {q : ℚ} (h : 0 ≤ q) : 0 ≤ rne q := by
  have hf : (0 : Int) ≤ ⌊q⌋ := Int.le_floor.mpr (by exact_mod_cast h)
  unfold rne
  dsimp only
  split
  · exact hf
  · split
    · omega
    · split <;> omega

lemma rne_le_int {q : ℚ} {m : Int} (h : q ≤ (m : ℚ)) : rne q ≤ m := by
  have hf : ⌊q⌋ ≤ m := by
    have := Int.floor_le_floor h
    simpa using this
  unfold rne
  dsimp only
  split
  · exact hf
  · rename_i h1
    have hlt : ⌊q⌋ < m := by
      by_contra hc
      have hm : ⌊q⌋ = m := le_antisymm hf (by omega)
      have : q - (⌊q⌋ : ℚ) ≤ 0 := by
        rw [hm]
        linarith
      linarith
    split
    · omega
    · split <;> omega

/-- C1: for the `and`, `or`, `xor` lowering, the claimed
per-operand-type truth test only happens when both operands are of the
same numeric family; the LOGICOP macro selects the test (and hence the
variant access) for the right operand by `l.isFloat()`, so a float/int
or int/float operand pair makes `r.f()` / `r.i()` access the wrong
`std::variant` alternative and throw `std::bad_variant_access`
(`variantAccess`).  Evaluated here at the failing inputs `"1.5 1 and"`
and `"1 1.5 and"`; the same-family input `"1 2 and"` behaves as
claimed. -/
theorem c1_logicop_mixed_operand_crash :
    compileExpr env0 "1.5 1 and".data = .error .variantAccess ∧
    compileExpr env0 "1 1.5 and".data = .error .variantAccess ∧
    compileExpr env0 "1 2 and".data = .ok (.si 1) := by
  exact ⟨by with_unfolding_all rfl, by with_unfolding_all rfl, by with_unfolding_all rfl⟩

/-- C2 counterexample: at an integer-typed host property of value 1,
the code's constants-buffer slot (`float val = propGetInt(...)`, a
numeric conversion) holds 1.0, while the slot described by the
specification ("integer value's bit pattern reinterpreted as a float",
pattern 0x00000001) would hold the denormal 2^-149; the two differ. -/
theorem c2_counterexample_int_prop_not_bit_pattern :
    materializeSlot (some (.intP 1)) = .val 1 ∧
    slotSpecBitPattern (some (.intP 1)) = .val (1 / 2 ^ 149) ∧
    (1 : ℚ) ≠ 1 / 2 ^ 149 := by
  exact ⟨by with_unfolding_all rfl, by with_unfolding_all rfl, by norm_num⟩

lemma materializeSlot_eq_amended (p : Option HostProp) :
    materializeSlot p = slotSpecAmended p := by
  rcases p with _ | p
  · rfl
  · rcases p with v | q | _ <;> rfl

/-- C2 (amended): at every per-frame invocation the constants buffer
holds the frame number in slot 0 and, for every property-access
descriptor in order: the property's value when the host property is a
float, the property's integer value numerically converted to float
when it is an integer, and NaN whenever retrieval fails (absent
property, or a property of neither numeric type). -/
theorem c2_consts_buffer_amended (n : Int) (pas : List (Nat × List Char))
    (lookup : Nat → List Char → Option HostProp) :
    buildConsts n pas lookup = ⟨n, pas.map fun pa => slotSpecAmended (lookup pa.1 pa.2)⟩ := by
  unfold buildConsts
  refine congrArg (ConstBuf.mk n) ?_
  exact List.map_congr_left fun pa _ => materializeSlot_eq_amended (lookup pa.1 pa.2)

/-- C4 counterexample: filter creation with the empty expression `""`
does not fail with an empty-expression error; the plane is marked
`poCopy` (same output format) or `poUndefined` (changed format), no
compilation happens, and creation succeeds. -/
theorem c4_counterexample_empty_expr_succeeds :
    createOnePlane env0 "".data true = .ok .poCopy ∧
    createOnePlane env0 "".data false = .ok .poUndefined := by
  exact ⟨rfl, rfl⟩

/-- C4 (amended): compilation of `"+"` fails with the
insufficient-values-on-stack error and `"1 2"` with the
unconsumed-values error, in each case failing filter creation
atomically through the host error channel with the `"Expr: "` prefix;
the empty expression `""` is never compiled (its plane is copied, or
undefined when the output format differs, and creation succeeds);
a whitespace-only expression such as `" "` does reach compilation and
fails with the empty-expression error. -/
theorem c4_arity_and_empty_checks :
    (∀ (env : Env) (s : Bool),
        hostCreateOnePlane env "+".data s =
          .error ("Expr: insufficient values on stack: +".data)) ∧
    (∀ (env : Env) (s : Bool),
        hostCreateOnePlane env "1 2".data s =
          .error ("Expr: unconsumed values on stack: 1 2".data)) ∧
    (∀ env : Env, createOnePlane env "".data true = .ok .poCopy) ∧
    (∀ env : Env, createOnePlane env "".data false = .ok .poUndefined) ∧
    (∀ (env : Env) (s : Bool),
        hostCreateOnePlane env " ".data s =
          .error ("Expr: empty expression: ".data ++ " ".data)) := by
  refine ⟨?_, ?_, ?_, ?_, ?_⟩
  · intro env s
    with_unfolding_all rfl
  · intro env s
    with_unfolding_all rfl
  · intro env
    rfl
  · intro env
    rfl
  · intro env s
    with_unfolding_all rfl

/-- C7 counterexample: the token `"2.0"` decodes to a CONSTANT with
float immediate 2.0, which equals its truncation to int, so lowering
pushes an integer vector (value 2, `isFloat = false`), not a float
vector as claimed. -/
theorem c7_counterexample_two_point_zero_is_int :
    decodeToken "2.0".data = .ok ⟨.CONSTANT, 0, 2, []⟩ ∧
    stepOp env0 "2.0".data ⟨.CONSTANT, 0, 2, []⟩ [] = .ok [⟨.iv 2, true⟩] ∧
    Value.isFloat ⟨.iv 2, true⟩ = false := by
  exact ⟨by with_unfolding_all rfl, by with_unfolding_all rfl, rfl⟩

/-- C7 (amended): for every literal-constant op, if the float immediate
equals its truncation to int exactly, lowering pushes an integer vector
with that int value, otherwise a float vector with the immediate; in
particular both `"2"` and `"2.0"` yield the integer-vector constant 2
(2.0 equals its truncation), and both store to an 8-bit integer output
as the byte 2 at every pixel. -/
theorem c7_literal_typing :
    (∀ (env : Env) (tok : List Char) (q : ℚ) (st : List Value),
        stepOp env tok ⟨.CONSTANT, 0, q, []⟩ st =
          if q = ((qtrunc q : Int) : ℚ) then .ok (⟨.iv (qtrunc q), true⟩ :: st)
          else .ok (⟨.fv q, true⟩ :: st)) ∧
    compileExpr env0 "2".data = .ok (.si 2) ∧
    compileExpr env0 "2.0".data = .ok (.si 2) := by
  refine ⟨?_, by with_unfolding_all rfl, by with_unfolding_all rfl⟩
  intro env tok q st
  rfl

lemma memLoadFmt_ok (format : VSFormat) (ff : Bool) (a : Nat) (b : ℚ)
    (hwf : VSFormatWF format) (hval : validFormat format = true) :
    ∃ v, memLoadFmt format ff a b = .ok v := by
  obtain ⟨fst, bits, bytes⟩ := format
  obtain ⟨h8, h32, hflt, hbytes⟩ := hwf
  simp only at hbytes
  subst hbytes
  cases fst with
  | stInteger =>
    have hbits : bits ≤ 16 := by
      simp [validFormat] at hval
      omega
    rcases le_or_lt bits 8 with hb | hb
    · cases ff <;> simp [memLoadFmt, vsBytes, hb]
    · cases ff <;> simp [memLoadFmt, vsBytes, hb, Nat.not_le.mpr hb, hbits]
  | stFloat =>
    have hbits : bits = 32 := by
      simp [validFormat] at hval
      exact hval
    subst hbits
    simp [memLoadFmt, vsBytes]

/-- C3: under the creation-time format validator (integer sample type
of at most 16 bits, or float of exactly 32 bits) and the VapourSynth
format invariants (bytesPerSample derived from bitsPerSample), every
lowered MEM_LOAD of a defined clip pushes a fully initialized value:
the uninitialized-`x` branch (integer sample with byte width neither 1
nor 2) and the 16-bit-float `abort()` branch are unreachable. -/
theorem c3_mem_load_initialized (env : Env) (tok : List Char) (st : List Value) (i : Nat)
    (hin : i < env.numInputs)
    (hwf : VSFormatWF (env.fmts i)) (hval : validFormat (env.fmts i) = true) :
    ∃ v, stepOp env tok ⟨.MEM_LOAD, (i : Int), 0, []⟩ st = .ok (v :: st) := by
  obtain ⟨v, hv⟩ := memLoadFmt_ok (env.fmts i) env.forceFloat (env.pixI i) (env.pixF i) hwf hval
  refine ⟨v, ?_⟩
  have h1 : ¬((env.numInputs : Int) ≤ ((i : Nat) : Int)) := by
    push_neg
    exact_mod_cast hin
  simp [stepOp, h1, memLoadVal, hv, numOperands]

/-- Witness for C3: an 8-bit integer input clip with sample value 5. -/
theorem c3_mem_load_initialized_witness :
    (0 < (env1 5).numInputs ∧ VSFormatWF ((env1 5).fmts 0) ∧
      validFormat ((env1 5).fmts 0) = true) ∧
    ∃ v, stepOp (env1 5) "x".data ⟨.MEM_LOAD, ((0 : Nat) : Int), 0, []⟩ [] = .ok [v] := by
  refine ⟨⟨by with_unfolding_all decide, ⟨by with_unfolding_all decide,
    by with_unfolding_all decide, by with_unfolding_all decide, by with_unfolding_all decide⟩,
    by with_unfolding_all decide⟩, ?_⟩
  exact c3_mem_load_initialized (env1 5) "x".data [] 0 (by with_unfolding_all decide)
    ⟨by with_unfolding_all decide, by with_unfolding_all decide,
     by with_unfolding_all decide, by with_unfolding_all decide⟩
    (by with_unfolding_all decide)

lemma storeVal_int_exact (bits bytes : Nat) (n : Int) (c : Bool)
    (hby : bytes = 1 ∨ bytes = 2) (h0 : 0 ≤ n) (h1 : n < 2 ^ bits) (hbb : bits ≤ 8 * bytes) :
    storeVal ⟨.stInteger, bits, bytes⟩ ⟨.iv n, c⟩ = .ok (.si n.toNat) ∧
    storeVal ⟨.stInteger, bits, bytes⟩ ⟨.fv (n : ℚ), c⟩ = .ok (.si n.toNat) := by
  have hn : n ≤ 2 ^ bits - 1 := by linarith
  have hcap : (2 : Int) ^ bits ≤ 2 ^ (8 * bytes) := pow_le_pow_right₀ (by norm_num) hbb
  have e1 : (n : ℚ) ⊔ 0 = (n : ℚ) := sup_eq_left.mpr (by exact_mod_cast h0)
  have e2 : (n : ℚ) ⊓ ((2 : ℚ) ^ bits - 1) = (n : ℚ) := by
    refine inf_eq_left.mpr ?_
    have hq : ((n : ℚ)) ≤ ((2 ^ bits - 1 : Int) : ℚ) := by exact_mod_cast hn
    push_cast at hq
    exact hq
  rcases hby with h | h <;> subst h
  · have h8 : (2 : Int) ^ bits ≤ 2 ^ 8 := by
      calc (2 : Int) ^ bits ≤ 2 ^ (8 * 1) := hcap
      _ = 2 ^ 8 := by norm_num
    constructor
    · unfold storeVal
      norm_num
      generalize hp : (2 : Int) ^ bits = P at h1 h8 ⊢
      omega
    · unfold storeVal
      norm_num
      rw [e1, e2, rne_intCast]
      generalize hp : (2 : Int) ^ bits = P at h1 h8
      omega
  · have h16 : (2 : Int) ^ bits ≤ 2 ^ 16 := by
      calc (2 : Int) ^ bits ≤ 2 ^ (8 * 2) := hcap
      _ = 2 ^ 16 := by norm_num
    constructor
    · unfold storeVal
      norm_num
      generalize hp : (2 : Int) ^ bits = P at h1 h16 ⊢
      omega
    · unfold storeVal
      norm_num
      rw [e1, e2, rne_intCast]
      generalize hp : (2 : Int) ^ bits = P at h1 h16
      omega

/-- C5: for every single-clip integer source (well-formed format that
passes the validator) and the expression `"x"`, in both `opt` modes,
the compiled routine writes output equal to the input at every pixel:
the load followed by the clamped store is the identity on every
in-range sample value `v < 2^bits`. -/
theorem c5_roundtrip_identity (fmt : VSFormat) (v : Nat) (ff : Bool)
    (hwf : VSFormatWF fmt) (hint : fmt.sampleType = .stInteger)
    (hval : validFormat fmt = true) (hv : v < 2 ^ fmt.bitsPerSample) :
    compileExpr (mkIntEnv fmt v ff) "x".data = .ok (.si v) := by
  obtain ⟨fst, bits, bytes⟩ := fmt
  simp only at hint
  subst hint
  obtain ⟨h8, h32, hflt, hbytes⟩ := hwf
  simp only at hbytes hv
  subst hbytes
  have hbits : bits ≤ 16 := by
    simp [validFormat] at hval
    omega
  have h1 : tokenize "x".data = ["x".data] := by with_unfolding_all rfl
  have h2 : decodeAll ["x".data] = .ok [⟨.MEM_LOAD, 0, 0, []⟩] := by with_unfolding_all rfl
  simp only [compileExpr, h1, h2, List.zip_cons_cons, List.zip_nil_right, resolveProps,
    isPropOp]
  norm_num
  have htn : ((v : Int)).toNat = v := Int.toNat_natCast v
  rcases le_or_lt bits 8 with hb | hb
  · have hby : vsBytes bits = 1 := by simp [vsBytes, hb]
    have hv8 : v < 2 ^ 8 := lt_of_lt_of_le hv (Nat.pow_le_pow_right (by norm_num) hb)
    have hmodI : (v : Int) % 256 = (v : Int) := by omega
    have hst := storeVal_int_exact bits 1 (v : Int) false (Or.inl rfl)
      (by positivity) (by exact_mod_cast hv) (by omega)
    have hst2 := hst.2
    push_cast at hst2
    cases ff <;>
      simp [runOps, stepOp, numOperands, memLoadVal, memLoadFmt, mkIntEnv, env0, hby,
        hmodI, hst.1, hst2, htn]
  · have hby : vsBytes bits = 2 := by
      simp [vsBytes, Nat.not_le.mpr hb, hbits]
    have hv16 : v < 2 ^ 16 := lt_of_lt_of_le hv (Nat.pow_le_pow_right (by norm_num) hbits)
    have hmodI : (v : Int) % 65536 = (v : Int) := by omega
    have hst := storeVal_int_exact bits 2 (v : Int) false (Or.inr rfl)
      (by positivity) (by exact_mod_cast hv) (by omega)
    have hst2 := hst.2
    push_cast at hst2
    cases ff <;>
      simp [runOps, stepOp, numOperands, memLoadVal, memLoadFmt, mkIntEnv, env0, hby,
        hmodI, hst.1, hst2, htn]



/-- C9: for an 8-bit integer output plane the final stack value is
clamped to `[0, 2^8 - 1]` before the store (round-to-nearest first when
the value is floating, plain integer clamp otherwise, after which the
narrowing through `UShortV`/`ByteV` is the identity); on a one-clip
8-bit plane with `opt = 1`, the expression `"x 2 *"` stores
`min (2 v) 255` at a pixel of value `v`, and the concrete plane
`[0, 64, 128, 255]` produces `[0, 128, 255, 255]`. -/
theorem c9_int_store_clamps (v : Nat) (hv : v ≤ 255) :
    compileExpr (env1 v) "x 2 *".data = .ok (.si (min (v * 2) 255)) ∧
    (∀ (q : ℚ) (c : Bool), storeVal fmtU8 ⟨.fv q, c⟩ =
        .ok (.si ((rne (min (max q 0) 255)).toNat))) ∧
    (∀ (n : Int) (c : Bool), storeVal fmtU8 ⟨.iv n, c⟩ =
        .ok (.si ((min (max n 0) 255).toNat))) ∧
    [0, 64, 128, 255].map (fun w => compileExpr (env1 w) "x 2 *".data) =
      [.ok (.si 0), .ok (.si 128), .ok (.si 255), .ok (.si 255)] := by
  refine ⟨?_, ?_, ?_, by with_unfolding_all rfl⟩
  · have h1 : tokenize "x 2 *".data = ["x".data, "2".data, "*".data] := by
      with_unfolding_all rfl
    have h2 : decodeAll ["x".data, "2".data, "*".data] =
        .ok [⟨.MEM_LOAD, 0, 0, []⟩, ⟨.CONSTANT, 0, 2, []⟩, ⟨.MUL, 0, 0, []⟩] := by
      with_unfolding_all rfl
    have hmodI : (v : Int) % 256 = (v : Int) := by omega
    have hqt : qtrunc (2 : ℚ) = 2 := by
      norm_num [qtrunc]
    simp only [compileExpr, h1, h2, List.zip_cons_cons, List.zip_nil_right, resolveProps,
      isPropOp]
    norm_num
    simp [runOps, stepOp, numOperands, memLoadVal, memLoadFmt, env1, env0, fmtU8,
      hmodI, hqt, binArith, storeVal]
    omega
  · intro q c
    have hr0 : 0 ≤ rne (min (max q 0) 255) :=
      rne_nonneg (le_min (le_max_right q 0) (by norm_num))
    have hr1 : rne (min (max q 0) 255) ≤ 255 := rne_le_int (min_le_right _ _)
    unfold storeVal
    norm_num [fmtU8]
    omega
  · intro n c
    unfold storeVal
    norm_num [fmtU8]
    omega

/-- Witness for C5: 10-bit integer format (2-byte samples), pixel value
1000, in both `opt` modes. -/
theorem c5_roundtrip_identity_witness :
    (VSFormatWF ⟨.stInteger, 10, 2⟩ ∧ validFormat ⟨.stInteger, 10, 2⟩ = true ∧
      1000 < 2 ^ (10 : Nat)) ∧
    compileExpr (mkIntEnv ⟨.stInteger, 10, 2⟩ 1000 false) "x".data = .ok (.si 1000) ∧
    compileExpr (mkIntEnv ⟨.stInteger, 10, 2⟩ 1000 true) "x".data = .ok (.si 1000) := by
  have hwf : VSFormatWF ⟨.stInteger, 10, 2⟩ :=
    ⟨by norm_num, by norm_num, by simp, by norm_num [vsBytes]⟩
  refine ⟨⟨hwf, by with_unfolding_all decide, by norm_num⟩, ?_, ?_⟩
  · exact c5_roundtrip_identity ⟨.stInteger, 10, 2⟩ 1000 false hwf rfl
      (by with_unfolding_all decide) (by norm_num)
  · exact c5_roundtrip_identity ⟨.stInteger, 10, 2⟩ 1000 true hwf rfl
      (by with_unfolding_all decide) (by norm_num)

/-- Witness for C9 at pixel value 64. -/
theorem c9_int_store_clamps_witness :
    (64 : Nat) ≤ 255 ∧
    compileExpr (env1 64) "x 2 *".data = .ok (.si (min (64 * 2) 255)) := by
  exact ⟨by norm_num, (c9_int_store_clamps 64 (by norm_num)).1⟩

/-- C10: the token `"swap0"` decodes to a SWAP op with immediate 0;
lowering it succeeds exactly on a non-empty compile-time value stack
(an empty stack raises the insufficient-values error), and it leaves
the stack unchanged, since exchanging the top element with itself is
the identity. -/
theorem c10_swap0_identity (st : List Value) (h : st ≠ []) :
    decodeToken "swap0".data = .ok ⟨.SWAP, 0, 0, []⟩ ∧
    (∀ (env : Env) (tok : List Char), stepOp env tok ⟨.SWAP, 0, 0, []⟩ st = .ok st) ∧
    (∀ (env : Env) (tok : List Char),
        stepOp env tok ⟨.SWAP, 0, 0, []⟩ [] = .error (.stackUnderflow tok)) := by
  obtain ⟨a, t, rfl⟩ : ∃ a t, st = a :: t := by
    cases st with
    | nil => exact absurd rfl h
    | cons a t => exact ⟨a, t, rfl⟩
  refine ⟨by with_unfolding_all rfl, ?_, ?_⟩
  · intro env tok
    rfl
  · intro env tok
    rfl

/-- Witness for C10 at the concrete one-element stack `[5]`. -/
theorem c10_swap0_identity_witness :
    ([⟨.iv 5, false⟩] : List Value) ≠ [] ∧
    decodeToken "swap0".data = .ok ⟨.SWAP, 0, 0, []⟩ ∧
    stepOp env0 "swap0".data ⟨.SWAP, 0, 0, []⟩ [⟨.iv 5, false⟩] = .ok [⟨.iv 5, false⟩] := by
  have h : ([⟨.iv 5, false⟩] : List Value) ≠ [] := by simp
  exact ⟨h, (c10_swap0_identity [⟨.iv 5, false⟩] h).1,
    (c10_swap0_identity [⟨.iv 5, false⟩] h).2.1 env0 "swap0".data⟩

lemma dedupF_nil (acc : List (Nat × List Char)) : dedupF acc [] = acc := rfl

lemma dedupF_cons (acc : List (Nat × List Char)) (x : Nat × List Char)
    (r : List (Nat × List Char)) :
    dedupF acc (x :: r) = dedupF (if x ∈ acc then acc else acc ++ [x]) r := by
  simp [dedupF]

lemma dedupF_suffix (l : List (Nat × List Char)) :
    ∀ acc, ∃ t, dedupF acc l = acc ++ t := by
  induction l with
  | nil => exact fun acc => ⟨[], by simp [dedupF_nil]⟩
  | cons x r ih =>
    intro acc
    rw [dedupF_cons]
    by_cases hx : x ∈ acc
    · simpa [hx] using ih acc
    · obtain ⟨t, ht⟩ := ih (acc ++ [x])
      refine ⟨[x] ++ t, ?_⟩
      simp only [hx, if_false, ht, List.append_assoc]

lemma idxOfKey_append (acc t : List (Nat × List Char)) (p : Nat × List Char)
    (hp : p ∈ acc) : idxOfKey (acc ++ t) p = idxOfKey acc p := by
  induction acc with
  | nil => cases hp
  | cons a r ih =>
    by_cases h : p = a
    · simp [idxOfKey, h]
    · have hp2 : p ∈ r := by
        rcases List.mem_cons.mp hp with h1 | h1
        · exact absurd h1 h
        · exact h1
      simp [idxOfKey, h, ih hp2]

lemma resolveProps_ok (n : Nat) (l : List (List Char × ExprOp)) :
    ∀ acc, (∀ p ∈ pairsOf l, p.1 < n) →
    resolveProps n l acc =
      .ok (l.map fun te => rewriteOp (dedupF acc (pairsOf l)) te.2, dedupF acc (pairsOf l)) := by
  induction l with
  | nil =>
    intro acc _
    simp [resolveProps, pairsOf, dedupF_nil]
  | cons te r ih =>
    intro acc good
    obtain ⟨tok, op⟩ := te
    by_cases hp : isPropOp op = true
    · have hpair : pairsOf ((tok, op) :: r) = propPair op :: pairsOf r := by
        simp [pairsOf, hp]
      have hlt : (propPair op).1 < n := by
        refine good _ ?_
        rw [hpair]
        exact List.mem_cons_self _ _
      have hnot : ¬ n ≤ (op.immInt - 3).toNat := by
        have he : (propPair op).1 = (op.immInt - 3).toNat := rfl
        omega
      have hgoodr : ∀ p ∈ pairsOf r, p.1 < n := by
        intro p hmem
        refine good p ?_
        rw [hpair]
        exact List.mem_cons_of_mem _ hmem
      have hrec := ih (if propPair op ∈ acc then acc else acc ++ [propPair op]) hgoodr
      have hmem2 : propPair op ∈ (if propPair op ∈ acc then acc else acc ++ [propPair op]) := by
        by_cases hx : propPair op ∈ acc <;> simp [hx]
      obtain ⟨t, ht⟩ := dedupF_suffix (pairsOf r)
        (if propPair op ∈ acc then acc else acc ++ [propPair op])
      simp only [resolveProps, hp, if_true, hnot, if_false, hrec]
      rw [hpair, dedupF_cons]
      refine congrArg Except.ok (Prod.ext ?_ rfl)
      simp only [List.map_cons]
      refine congrArg₂ List.cons ?_ rfl
      simp only [rewriteOp, hp, if_true]
      refine congrArg (fun k => { op with immInt := 3 + (k : Int) }) ?_
      rw [ht, idxOfKey_append _ _ _ hmem2]
    · have hpair : pairsOf ((tok, op) :: r) = pairsOf r := by
        simp [pairsOf, hp]
      have hrec := ih acc (fun p hmem => good p (by rw [hpair]; exact hmem))
      simp only [resolveProps, hp, if_false, hrec]
      rw [hpair]
      simp [rewriteOp, hp]



lemma resolveProps_err (n : Nat) (l : List (List Char × ExprOp)) :
    ∀ acc, (∃ p ∈ pairsOf l, n ≤ p.1) →
    ∃ tok, resolveProps n l acc = .error (.undefinedClip tok) := by
  induction l with
  | nil =>
    intro acc bad
    obtain ⟨p, hp, _⟩ := bad
    simp [pairsOf] at hp
  | cons te r ih =>
    intro acc bad
    obtain ⟨tok, op⟩ := te
    by_cases hp : isPropOp op = true
    · by_cases hbad : n ≤ (op.immInt - 3).toNat
      · exact ⟨tok, by simp [resolveProps, hp, hbad]⟩
      · have hrest : ∃ p ∈ pairsOf r, n ≤ p.1 := by
          obtain ⟨p, hmem, hnp⟩ := bad
          have hpair : pairsOf ((tok, op) :: r) = propPair op :: pairsOf r := by
            simp [pairsOf, hp]
          rw [hpair] at hmem
          rcases List.mem_cons.mp hmem with h1 | h1
          · refine absurd hnp ?_
            have he : (propPair op).1 = (op.immInt - 3).toNat := rfl
            subst h1
            omega
          · exact ⟨p, h1, hnp⟩
        obtain ⟨tok2, ht⟩ := ih (if propPair op ∈ acc then acc else acc ++ [propPair op]) hrest
        exact ⟨tok2, by simp [resolveProps, hp, hbad, ht]⟩
    · have hrest : ∃ p ∈ pairsOf r, n ≤ p.1 := by
        obtain ⟨p, hmem, hnp⟩ := bad
        have hpair : pairsOf ((tok, op) :: r) = pairsOf r := by
          simp [pairsOf, hp]
        rw [hpair] at hmem
        exact ⟨p, hmem, hnp⟩
      obtain ⟨tok2, ht⟩ := ih acc hrest
      exact ⟨tok2, by simp [resolveProps, hp, ht]⟩

/-- C8: the property-access resolver pass rewrites the immediate of
every property LOAD_CONST op (immediate at or beyond the reserved count
3) to 3 plus a dense index, namely the position of the op's
`(clip, name)` pair in the first-occurrence deduplication of all
property pairs; hence any two ops with the same pair receive the same
dense index, and the produced descriptor vector is exactly that
deduplicated list, i.e. it lists the pairs in dense-index order.  A
property whose clip index reaches the input count fails compilation
with the reference-to-undefined-clip error. -/
theorem c8_property_resolver (n : Nat) (l : List (List Char × ExprOp)) :
    ((∀ p ∈ pairsOf l, p.1 < n) →
      resolveProps n l [] =
        .ok (l.map fun te => rewriteOp (dedupF [] (pairsOf l)) te.2,
             dedupF [] (pairsOf l))) ∧
    ((∃ p ∈ pairsOf l, n ≤ p.1) →
      ∃ tok, resolveProps n l [] = .error (.undefinedClip tok)) :=
  ⟨resolveProps_ok n l [], resolveProps_err n l []⟩

/-- Witness for C8: a stream with properties x.a, y.b, x.a resolved
against two inputs (rewrite succeeds, x.a interned once) and against
one input (y.b is an undefined clip). -/
theorem c8_property_resolver_witness :
    ((∀ p ∈ pairsOf samplePropOps, p.1 < 2) ∧
      resolveProps 2 samplePropOps [] =
        .ok (samplePropOps.map fun te => rewriteOp (dedupF [] (pairsOf samplePropOps)) te.2,
             dedupF [] (pairsOf samplePropOps))) ∧
    ((∃ p ∈ pairsOf samplePropOps, 1 ≤ p.1) ∧
      ∃ tok, resolveProps 1 samplePropOps [] = .error (.undefinedClip tok)) := by
  have hgood : ∀ p ∈ pairsOf samplePropOps, p.1 < 2 := by with_unfolding_all decide
  have hbad : ∃ p ∈ pairsOf samplePropOps, 1 ≤ p.1 := by
    refine ⟨(1, "b".data), ?_, by norm_num⟩
    with_unfolding_all decide
  exact ⟨⟨hgood, (c8_property_resolver 2 samplePropOps).1 hgood⟩,
         ⟨hbad, (c8_property_resolver 1 samplePropOps).2 hbad⟩⟩

end Expr2
